import Mathlib

/-!
Verification of the point-only GeoJSON to Mapbox-Vector-Tile encoder in
`geojson2vectortile.js`.

Modelling conventions, used throughout:

- Byte buffers are `List Int`.  The JavaScript code pushes the results of
  bitwise expressions into plain arrays; keeping the elements in `Int`
  (rather than a byte type) lets the model show exactly which values the
  code pushes, including out-of-range ones.
- JavaScript bitwise operators (`&`, `|`, `^`, `<<`, `>>`) convert their
  operands with ToInt32 and work on 32-bit two's-complement integers.
  `toInt32` below is that conversion; `>> k` on an int32 value `t` is the
  arithmetic shift, i.e. floor division `t / 2 ^ k` (Lean's `Int` division
  by a positive divisor rounds toward negative infinity, matching it).
- Geographic and tile-local arithmetic that the source performs on IEEE
  doubles with only field operations and comparisons is modelled over `ℚ`.
  The transcendental parts (`Math.log`, `Math.tan`, `Math.cos` inside
  `lat2tileY`, `tile2lat` and `lonLatToMeters`) are modelled over `ℝ`
  where a claim needs their values, and are abstracted into function
  parameters where a claim holds for every choice of their values.
- A JavaScript `NaN` coordinate is modelled as `Option.none`: every IEEE
  comparison with NaN is false, which is exactly how the model's
  containment test treats `none`.
-/

/-- JavaScript ToInt32: reduce an integer into `[-2^31, 2^31)` modulo `2^32`. -/
def toInt32 (v : Int) : Int :=
  (v % 4294967296 + 2147483648) % 4294967296 - 2147483648

/-- JavaScript `a << b` for 32-bit integers: the shift count is taken mod 32
and the product wraps to int32. -/
def jsShl32 (a : Int) (b : Nat) : Int :=
  toInt32 (toInt32 a * 2 ^ (b % 32))

/- ---------------- Protobuf / MVT encoding (source lines 16-120) ------------- -/

/-- The loop body of `writeVarint` (source lines 18-22):
`while (val > 0x7F) { arr.push((val & 0x7F) | 0x80); val >>= 7; }
arr.push(val);`
`(val & 0x7F)` is the low 7 bits of ToInt32(val), which equals `val % 0x80`
for every integer `val` because `0x80` divides `2^32`; `| 0x80` sets bit 7,
i.e. adds `0x80` to a value in `[0, 0x80)`.  `val >>= 7` is the arithmetic
shift of ToInt32(val), i.e. floor division of `toInt32 val` by `0x80`. -/
def writeVarintLoop (val : Int) : List Int :=
  if 0x7F < val then
    (val % 0x80 + 0x80) :: writeVarintLoop (toInt32 val / 0x80)
  else [val]
termination_by val.natAbs
decreasing_by simp [toInt32]; omega

/-- `writeVarint(arr, val)` (source lines 16-23) appends the varint bytes of
`val` to the buffer `arr`. -/
def writeVarint (arr : List Int) (val : Int) : List Int :=
  arr ++ writeVarintLoop val

/-- UTF-8 bytes of a string, as `Buffer.from(str, 'utf8')` produces them. -/
def utf8 (s : String) : List Int :=
  (s.data.flatMap String.utf8EncodeChar).map fun b => (b.toNat : Int)

/-- `writeString(arr, fieldNumber, str)` (source lines 25-33): tag with wire
type 2, then the UTF-8 byte length, then the bytes. -/
def writeString (arr : List Int) (fieldNumber : Nat) (str : String) : List Int :=
  let arr := writeVarint arr (((fieldNumber <<< 3) ||| 2 : Nat) : Int)
  let u := utf8 str
  let arr := writeVarint arr (u.length : Int)
  arr ++ u

/-- `zigZagEncode(num) = (num << 1) ^ (num >> 31)` (source lines 36-39), with
JavaScript 32-bit semantics: both operands of `^` are int32 values, and
`num >> 31` is `-1` for a negative int32 and `0` otherwise. -/
def zigZagEncode (num : Int) : Int :=
  Int.xor (jsShl32 num 1) (toInt32 num / 2147483648)

/-- `createPointGeometryCommand(x, y)` (source lines 42-50): the packed
MoveTo command followed by the zigzag-encoded coordinates. -/
def createPointGeometryCommand (x y : Int) : List Int :=
  let commandMoveTo : Int := (((1 &&& 0x7) ||| (1 <<< 3) : Nat) : Int)
  let dx := zigZagEncode x
  let dy := zigZagEncode y
  [commandMoveTo, dx, dy]

/-- A feature as `generateTilePbf` rebuilds it before encoding (source lines
142-149): tile-local integer coordinates plus the carried-over properties. -/
structure TileFeature (α : Type) where
  xt : Int
  yt : Int
  properties : α
deriving DecidableEq

/-- `encodeFeature(feature)` (source lines 55-92).  The source reads only
`feature.geometry.coordinates`; the properties are never consulted. -/
def encodeFeature {α : Type} (feature : TileFeature α) : List Int :=
  let x := feature.xt
  let y := feature.yt
  let geomCmds := createPointGeometryCommand x y
  let geomTypePoint : Int := 1
  let bytes : List Int := []
  let bytes := writeVarint bytes (((3 <<< 3) ||| 0 : Nat) : Int)
  let bytes := writeVarint bytes geomTypePoint
  let bytes := writeVarint bytes (((4 <<< 3) ||| 2 : Nat) : Int)
  let geomBuffer := geomCmds.foldl (fun buf v => writeVarint buf v) []
  let bytes := writeVarint bytes (geomBuffer.length : Int)
  let bytes := bytes ++ geomBuffer
  let featureWrapper : List Int := []
  let featureWrapper := writeVarint featureWrapper (((2 <<< 3) ||| 2 : Nat) : Int)
  let featureWrapper := writeVarint featureWrapper (bytes.length : Int)
  featureWrapper ++ bytes

/-- `encodeLayer(features, layerName, extent)` (source lines 97-120). -/
def encodeLayer {α : Type} (features : List (TileFeature α)) (layerName : String)
    (extent : Int) : List Int :=
  let layerBytes : List Int := []
  let layerBytes := writeString layerBytes 1 layerName
  let layerBytes := writeVarint layerBytes (((5 <<< 3) ||| 0 : Nat) : Int)
  let layerBytes := writeVarint layerBytes extent
  let layerBytes := features.foldl (fun acc f => acc ++ encodeFeature f) layerBytes
  let layerWrapper : List Int := []
  let layerWrapper := writeVarint layerWrapper (((3 <<< 3) ||| 2 : Nat) : Int)
  let layerWrapper := writeVarint layerWrapper (layerBytes.length : Int)
  layerWrapper ++ layerBytes

/- ---------------- The well-formed varint of the specification -------------- -/

/-- The canonical base-128 varint of a nonnegative integer, written from the
specification's words: 7 data bits per byte, low-order group first,
continuation bit `0x80` on every byte except the last. -/
def specVarint (n : Int) : List Int :=
  if n < 0x80 then [n]
  else (n % 0x80 + 0x80) :: specVarint (n / 0x80)
termination_by n.natAbs
decreasing_by omega

/-- A byte sequence is one well-formed varint: nonempty, every byte before
the last carries the continuation bit `0x80`, the last does not. -/
def varintWF : List Int → Bool
  | [] => false
  | [b] => decide (0 ≤ b) && decide (b < 0x80)
  | b :: rest => decide (0x80 ≤ b) && decide (b < 0x100) && varintWF rest

/-- Decode a base-128 varint: 7 data bits per byte, low-order group first. -/
def decodeVarint : List Int → Int
  | [] => 0
  | b :: rest => b % 0x80 + 0x80 * decodeVarint rest

theorem toInt32_eq_self (v : Int) (h1 : -2147483648 ≤ v) (h2 : v < 2147483648) :
    toInt32 v = v := by
  simp [toInt32]; omega

theorem specVarint_ne_nil (n : Int) : specVarint n ≠ [] := by
  rw [specVarint]
  split <;> simp

theorem specVarint_wf (n : Int) (h : 0 ≤ n) : varintWF (specVarint n) = true := by
  induction n using specVarint.induct with
  | case1 v hv =>
      rw [specVarint, if_pos hv, varintWF]
      simp
      omega
  | case2 v hv ih =>
      rw [specVarint, if_neg hv]
      obtain ⟨b, rest, hbr⟩ : ∃ b rest, specVarint (v / 0x80) = b :: rest := by
        rcases hs : specVarint (v / 0x80) with _ | ⟨b, rest⟩
        · exact absurd hs (specVarint_ne_nil _)
        · exact ⟨b, rest, rfl⟩
      rw [hbr, varintWF]
      case x_1 => simp
      have hrec := ih (by omega)
      rw [hbr] at hrec
      simp [hrec]
      omega

theorem specVarint_decode (n : Int) (h : 0 ≤ n) :
    decodeVarint (specVarint n) = n := by
  induction n using specVarint.induct with
  | case1 v hv =>
      rw [specVarint, if_pos hv, decodeVarint, decodeVarint]
      omega
  | case2 v hv ih =>
      rw [specVarint, if_neg hv, decodeVarint, ih (by omega)]
      omega

/-- For values below `2^31` the JavaScript loop agrees with the canonical
varint: `toInt32` is the identity there and `>> 7` is plain floor division. -/
theorem writeVarintLoop_eq_specVarint (n : Int) (h0 : 0 ≤ n) (h1 : n < 2147483648) :
    writeVarintLoop n = specVarint n := by
  induction n using writeVarintLoop.induct with
  | case1 v hv ih =>
      rw [writeVarintLoop, specVarint]
      rw [toInt32_eq_self v (by omega) (by omega)] at ih ⊢
      rw [if_pos hv, if_neg (by omega)]
      exact congrArg _ (ih (by omega) (by omega))
  | case2 v hv =>
      rw [writeVarintLoop, specVarint, if_neg hv, if_pos (by omega)]

/-- The round trip the specification asks for does hold below `2^31`. -/
theorem varint_roundtrip_below_2pow31 (n : Int) (h0 : 0 ≤ n) (h1 : n < 2147483648) :
    varintWF (writeVarint [] n) = true ∧ decodeVarint (writeVarint [] n) = n := by
  rw [writeVarint, List.nil_append, writeVarintLoop_eq_specVarint n h0 h1]
  exact ⟨specVarint_wf n h0, specVarint_decode n h0⟩

/-- C1: for every integer `n` in `[0, 2^32 - 1]`, the bytes appended by
`writeVarint(buf, n)` are claimed to form a well-formed base-128 varint that
decodes back to `n`.  The code breaks this at `n = 2^31`: `val >>= 7` is a
signed 32-bit shift, so the loop's second iteration sees the negative int32
`-2^24` and pushes it verbatim.  The emitted sequence `[0x80, -16777216]` is
not a well-formed varint and does not decode to `2^31`. -/
theorem C1_writeVarint_breaks_at_2pow31 :
    writeVarint [] 2147483648 = [128, -16777216] ∧
    varintWF (writeVarint [] 2147483648) = false ∧
    decodeVarint (writeVarint [] 2147483648) ≠ 2147483648 := by
  have h1 : writeVarint [] 2147483648 = [128, -16777216] := by
    rw [writeVarint, List.nil_append, writeVarintLoop]
    norm_num [toInt32]
    rw [writeVarintLoop]
    norm_num
  refine ⟨h1, ?_, ?_⟩
  · rw [h1, varintWF]
    case x_1 => simp
    rw [varintWF]
    norm_num
  · rw [h1, decodeVarint, decodeVarint, decodeVarint]
    norm_num

/- ---------------- Features and the per-tile pipeline (lines 126-168) ------- -/

/-- An input GeoJSON point feature: `geometry.coordinates = [lon, lat]` plus a
properties value of arbitrary type `α` (the source never inspects it).  A
`none` coordinate models a non-finite IEEE value (NaN): every JavaScript
comparison with NaN is false, which is how the tests below treat `none`. -/
structure Feature (α : Type) where
  lon : Option ℚ
  lat : Option ℚ
  properties : α
deriving DecidableEq

/-- The inclusive containment test of source line 137:
`lon >= w && lon <= e && lat >= s && lat <= n`. -/
def inBbox {α : Type} (w s e n : ℚ) (feat : Feature α) : Bool :=
  match feat.lon, feat.lat with
  | some lon, some lat =>
      decide (w ≤ lon) && decide (lon ≤ e) && decide (s ≤ lat) && decide (lat ≤ n)
  | _, _ => false

/-- The clipping loop of source lines 134-152.  The projection to tile
coordinates (source line 139, `projectToTileCoordinates(lon, lat, 4096,
bboxMerc)`) goes through the transcendental `lonLatToMeters`, so it is taken
as a function parameter `proj`; every claim about this loop is proved for
every `proj`.  Each surviving feature is rebuilt with its tile coordinates
and its original properties, in input order. -/
def filteredFeatures {α : Type} (proj : ℚ → ℚ → Int × Int) (w s e n : ℚ)
    (features : List (Feature α)) : List (TileFeature α) :=
  features.filterMap fun feat =>
    match feat.lon, feat.lat with
    | some lon, some lat =>
        if inBbox w s e n feat then
          some ⟨(proj lon lat).1, (proj lon lat).2, feat.properties⟩
        else none
    | _, _ => none

/-- `generateTilePbf(geojson, z, x, y)` (source lines 126-168), with the
tile's geographic bbox `[w, s, e, n]` (source line 128, transcendental in
latitude) and the tile-coordinate projection passed as parameters.  When no
feature survives the clip the empty buffer is returned (line 158), otherwise
the single layer named `myLayer` with extent 4096 (line 162). -/
def generateTilePbf {α : Type} (proj : ℚ → ℚ → Int × Int) (w s e n : ℚ)
    (features : List (Feature α)) : List Int :=
  let filtered := filteredFeatures proj w s e n features
  if filtered.length = 0 then []
  else encodeLayer filtered "myLayer" 4096

/- ------------- Tile and coordinate conversions (lines 172-279) ------------- -/

/-- `tile2lon(x, z) = x / 2^z * 360 - 180` (source lines 172-174): exact
rational arithmetic. -/
def tile2lon (x : Int) (z : Nat) : ℚ :=
  (x : ℚ) / 2 ^ z * 360 - 180

/-- `projectToTileCoordinates(lon, lat, extent, bboxMerc)` (source lines
209-221).  The source first maps `(lon, lat)` through the transcendental
`lonLatToMeters`; here the point's Mercator position `(mx, my)` is the
argument, and the rest of the function is exact field arithmetic followed by
`Math.floor` on both components. -/
def projectToTileCoordinates (mx my : ℚ) (extent : Int)
    (minX minY maxX maxY : ℚ) : Int × Int :=
  let width := maxX - minX
  let height := maxY - minY
  let xRel := (mx - minX) / width
  let yRel := (maxY - my) / height
  let xTile := xRel * extent
  let yTile := yRel * extent
  (⌊xTile⌋, ⌊yTile⌋)

/-- `getGeoJsonBBox(geojson)` (source lines 229-241): the min/max envelope of
all coordinates, starting from `west = 180, south = 90, east = -180,
north = -90`.  Each comparison is skipped for a NaN (`none`) coordinate,
exactly as `lon < west` is false when `lon` is NaN. -/
def getGeoJsonBBox {α : Type} (features : List (Feature α)) : ℚ × ℚ × ℚ × ℚ :=
  features.foldl
    (fun acc feat =>
      let (west, south, east, north) := acc
      let west := match feat.lon with
        | some lon => if lon < west then lon else west
        | none => west
      let east := match feat.lon with
        | some lon => if lon > east then lon else east
        | none => east
      let south := match feat.lat with
        | some lat => if lat < south then lat else south
        | none => south
      let north := match feat.lat with
        | some lat => if lat > north then lat else north
        | none => north
      (west, south, east, north))
    (180, 90, -180, -90)

/-- `long2tileX(lon, zoom) = floor((lon + 180) / 360 * 2^zoom)` (source lines
244-246): exact rational arithmetic. -/
def long2tileX (lon : ℚ) (zoom : Nat) : Int :=
  ⌊(lon + 180) / 360 * 2 ^ zoom⌋

/-- `lat2tileY(lat, zoom)` (source lines 248-253):
`floor((1 - log(tan(rad) + 1/cos(rad)) / pi) / 2 * 2^zoom)` with
`rad = lat * pi / 180`, modelled over the real numbers. -/
noncomputable def lat2tileY (lat : ℝ) (zoom : Nat) : Int :=
  let rad := lat * Real.pi / 180
  ⌊(1 - Real.log (Real.tan rad + 1 / Real.cos rad) / Real.pi) / 2 * 2 ^ zoom⌋

/-- `getTileRangeFromBBox(bbox, z)` (source lines 259-279).  The row function
`lat2tileY` evaluates transcendental functions, so it is abstracted into the
parameter `latY` (the claim about this function is proved for every `latY`);
`long2tileX` is exact rational arithmetic.  `(1 << z)` is a JavaScript 32-bit
shift, and the clamps are `Math.max(0, Math.min(v, maxIndex))`. -/
def getTileRangeFromBBox (latY : ℚ → Nat → Int) (bbox : ℚ × ℚ × ℚ × ℚ) (z : Nat) :
    Int × Int × Int × Int :=
  let (west, south, east, north) := bbox
  let xMin := long2tileX west z
  let xMax := long2tileX east z
  let yMin := latY north z
  let yMax := latY south z
  let maxIndex : Int := jsShl32 1 z - 1
  (max 0 (min xMin maxIndex), max 0 (min xMax maxIndex),
   max 0 (min yMin maxIndex), max 0 (min yMax maxIndex))

/- -------- The payload layout stated by the specification (for C2) ---------- -/

/-- Protobuf field tag as the claim words it: `(fieldNumber << 3) | wireType`,
varint encoded. -/
def specTag (field wire : Nat) : List Int :=
  specVarint (((field <<< 3) ||| wire : Nat) : Int)

/-- Zigzag encoding as the specification defines it: small-magnitude signed
integers map to small unsigned integers. -/
def specZigZag (v : Int) : Int :=
  if 0 ≤ v then 2 * v else -(2 * v) - 1

/-- The claim's geometry stream for one point:
`[(1 & 0x7) | (1 << 3), zigzag(xt), zigzag(yt)]`, each value varint encoded. -/
def specPointGeometry (xt yt : Int) : List Int :=
  specVarint 9 ++ specVarint (specZigZag xt) ++ specVarint (specZigZag yt)

/-- One Feature message as the claim describes it: field 3 `type = 1` (POINT),
field 4 the length-delimited packed geometry, wrapped as length-delimited
field 2 of the layer; no id and no tags. -/
def specFeatureMsg (xt yt : Int) : List Int :=
  let geom := specPointGeometry xt yt
  let body := specTag 3 0 ++ specVarint 1 ++ specTag 4 2 ++
    specVarint (geom.length : Int) ++ geom
  specTag 2 2 ++ specVarint (body.length : Int) ++ body

/-- The layer body of the claim: field 1 `name = "myLayer"`, field 5
`extent = 4096`, then one Feature message per surviving point in order. -/
def specLayerBody (pts : List (Int × Int)) : List Int :=
  specTag 1 2 ++ specVarint ((utf8 "myLayer").length : Int) ++ utf8 "myLayer" ++
  specTag 5 0 ++ specVarint 4096 ++
  (pts.map fun p => specFeatureMsg p.1 p.2).flatten

/-- The whole payload of the claim: exactly one length-delimited field 3
(layers) message holding the layer body. -/
def specTilePayload (pts : List (Int × Int)) : List Int :=
  specTag 3 2 ++ specVarint ((specLayerBody pts).length : Int) ++ specLayerBody pts

/- ---------------- Helper lemmas for the payload equality ------------------- -/

theorem writeVarintLoop_ne_nil (v : Int) : writeVarintLoop v ≠ [] := by
  rw [writeVarintLoop]
  split <;> simp

theorem foldl_append_map {β γ : Type} (g : β → List γ) (l : List β) (acc : List γ) :
    l.foldl (fun a x => a ++ g x) acc = acc ++ (l.map g).flatten := by
  induction l generalizing acc with
  | nil => simp
  | cons a t ih => simp [ih, List.append_assoc]

theorem specVarint_length_le (n : Int) (h : n < 16384) : (specVarint n).length ≤ 2 := by
  rw [specVarint]
  split
  · simp
  · rw [specVarint, if_pos (by omega : n / 0x80 < 0x80)]
    simp

theorem specZigZag_nonneg_of (v : Int) (h : 0 ≤ v) : 0 ≤ specZigZag v := by
  unfold specZigZag
  split <;> omega

theorem specZigZag_lt_of (v : Int) (h0 : -4096 ≤ v) (h : v ≤ 4096) : specZigZag v < 16384 := by
  unfold specZigZag
  split <;> omega

theorem specTag_eval (f w t : Nat) (h : (f <<< 3) ||| w = t) :
    specTag f w = specVarint (t : Int) := by
  rw [specTag, h]

theorem zigZagEncode_eq_spec (x : Int) (h0 : 0 ≤ x) (h1 : x < 1073741824) :
    zigZagEncode x = specZigZag x := by
  unfold zigZagEncode jsShl32 specZigZag
  rw [toInt32_eq_self x (by omega) (by omega)]
  rw [if_pos h0]
  have hp : (2 : ℤ) ^ (1 % 32) = 2 := by norm_num
  rw [hp, toInt32_eq_self (x * 2) (by omega) (by omega)]
  have hdiv : x / 2147483648 = 0 := by omega
  rw [hdiv]
  obtain ⟨m, rfl⟩ := Int.eq_ofNat_of_zero_le h0
  have hcast : (m : ℤ) * 2 = ((m * 2 : ℕ) : ℤ) := by push_cast; ring
  rw [hcast]
  have hx : Int.xor ((m * 2 : ℕ) : ℤ) ((0 : ℕ) : ℤ) = ((m * 2 ^^^ 0 : ℕ) : ℤ) := rfl
  have h0n : ((0 : ℕ) : ℤ) = (0 : ℤ) := rfl
  rw [h0n] at hx
  rw [hx]
  simp
  ring

theorem specPointGeometry_length_le (x y : Int) (hx0 : 0 ≤ x) (hx1 : x ≤ 4096)
    (hy0 : 0 ≤ y) (hy1 : y ≤ 4096) : (specPointGeometry x y).length ≤ 6 := by
  have g1 : (specVarint 9).length ≤ 2 := specVarint_length_le 9 (by norm_num)
  have g2 : (specVarint (specZigZag x)).length ≤ 2 :=
    specVarint_length_le _ (specZigZag_lt_of _ (by omega) hx1)
  have g3 : (specVarint (specZigZag y)).length ≤ 2 :=
    specVarint_length_le _ (specZigZag_lt_of _ (by omega) hy1)
  unfold specPointGeometry
  simp only [List.length_append]
  omega

theorem encodeFeature_eq_spec {α : Type} (tf : TileFeature α)
    (hx0 : 0 ≤ tf.xt) (hx1 : tf.xt ≤ 4096) (hy0 : 0 ≤ tf.yt) (hy1 : tf.yt ≤ 4096) :
    encodeFeature tf = specFeatureMsg tf.xt tf.yt := by
  obtain ⟨x, y, p⟩ := tf
  simp only at hx0 hx1 hy0 hy1
  have hzx : zigZagEncode x = specZigZag x := zigZagEncode_eq_spec _ hx0 (by omega)
  have hzy : zigZagEncode y = specZigZag y := zigZagEncode_eq_spec _ hy0 (by omega)
  have hzx0 : 0 ≤ specZigZag x := specZigZag_nonneg_of _ hx0
  have hzx1 : specZigZag x < 16384 := specZigZag_lt_of _ (by omega) hx1
  have hzy0 : 0 ≤ specZigZag y := specZigZag_nonneg_of _ hy0
  have hzy1 : specZigZag y < 16384 := specZigZag_lt_of _ (by omega) hy1
  have c9 : (((1 &&& 0x7) ||| (1 <<< 3) : Nat) : Int) = 9 := by decide
  have c24 : (((3 <<< 3) ||| 0 : Nat) : Int) = 24 := by decide
  have c34 : (((4 <<< 3) ||| 2 : Nat) : Int) = 34 := by decide
  have c18 : (((2 <<< 3) ||| 2 : Nat) : Int) = 18 := by decide
  have w24 : writeVarintLoop 24 = specVarint 24 :=
    writeVarintLoop_eq_specVarint 24 (by norm_num) (by norm_num)
  have w1 : writeVarintLoop 1 = specVarint 1 :=
    writeVarintLoop_eq_specVarint 1 (by norm_num) (by norm_num)
  have w34 : writeVarintLoop 34 = specVarint 34 :=
    writeVarintLoop_eq_specVarint 34 (by norm_num) (by norm_num)
  have w18 : writeVarintLoop 18 = specVarint 18 :=
    writeVarintLoop_eq_specVarint 18 (by norm_num) (by norm_num)
  have w9 : writeVarintLoop 9 = specVarint 9 :=
    writeVarintLoop_eq_specVarint 9 (by norm_num) (by norm_num)
  have wzx : writeVarintLoop (specZigZag x) = specVarint (specZigZag x) :=
    writeVarintLoop_eq_specVarint _ hzx0 (by omega)
  have wzy : writeVarintLoop (specZigZag y) = specVarint (specZigZag y) :=
    writeVarintLoop_eq_specVarint _ hzy0 (by omega)
  have hG : (specPointGeometry x y).length ≤ 6 :=
    specPointGeometry_length_le x y hx0 hx1 hy0 hy1
  have wG : writeVarintLoop ((specPointGeometry x y).length : Int) =
      specVarint ((specPointGeometry x y).length : Int) := by
    apply writeVarintLoop_eq_specVarint <;> [positivity; omega]
  unfold encodeFeature createPointGeometryCommand specFeatureMsg
  simp only [writeVarint, List.nil_append, List.foldl_cons, List.foldl_nil,
    c9, c24, c34, c18, hzx, hzy, w24, w1, w34, w18, w9, wzx, wzy]
  have hgeom : specVarint 9 ++ specVarint (specZigZag x) ++ specVarint (specZigZag y) =
      specPointGeometry x y := rfl
  simp only [List.append_assoc] at hgeom ⊢
  simp only [hgeom, wG]
  rw [specTag_eval 2 2 18 (by decide), specTag_eval 3 0 24 (by decide),
    specTag_eval 4 2 34 (by decide)]
  have hB : (specVarint 24 ++ (specVarint 1 ++ (specVarint 34 ++
      (specVarint ((specPointGeometry x y).length : Int) ++ specPointGeometry x y)))).length ≤ 14 := by
    have b1 : (specVarint 24).length ≤ 2 := specVarint_length_le _ (by norm_num)
    have b2 : (specVarint 1).length ≤ 2 := specVarint_length_le _ (by norm_num)
    have b3 : (specVarint 34).length ≤ 2 := specVarint_length_le _ (by norm_num)
    have b4 : (specVarint ((specPointGeometry x y).length : Int)).length ≤ 2 :=
      specVarint_length_le _ (by omega)
    simp only [List.length_append]
    omega
  rw [writeVarintLoop_eq_specVarint _ (by positivity) (by omega)]
  norm_cast

theorem specFeatureMsg_length_le (x y : Int) (hx0 : 0 ≤ x) (hx1 : x ≤ 4096)
    (hy0 : 0 ≤ y) (hy1 : y ≤ 4096) : (specFeatureMsg x y).length ≤ 18 := by
  have hG := specPointGeometry_length_le x y hx0 hx1 hy0 hy1
  have b1 : (specVarint 18).length ≤ 2 := specVarint_length_le _ (by norm_num)
  have b2 : (specVarint 24).length ≤ 2 := specVarint_length_le _ (by norm_num)
  have b3 : (specVarint 1).length ≤ 2 := specVarint_length_le _ (by norm_num)
  have b4 : (specVarint 34).length ≤ 2 := specVarint_length_le _ (by norm_num)
  have b5 : (specVarint ((specPointGeometry x y).length : Int)).length ≤ 2 :=
    specVarint_length_le _ (by omega)
  unfold specFeatureMsg
  rw [specTag_eval 2 2 18 (by decide), specTag_eval 3 0 24 (by decide),
    specTag_eval 4 2 34 (by decide)]
  simp only [Nat.cast_ofNat]
  have hbody : (specVarint 24 ++ specVarint 1 ++ specVarint 34 ++
      specVarint ((specPointGeometry x y).length : Int) ++ specPointGeometry x y).length ≤ 14 := by
    simp only [List.length_append]
    omega
  have b6 : (specVarint (((specVarint 24 ++ specVarint 1 ++ specVarint 34 ++
      specVarint ((specPointGeometry x y).length : Int) ++
      specPointGeometry x y).length : Nat) : Int)).length ≤ 2 :=
    specVarint_length_le _ (by omega)
  simp only [List.length_append] at b6 ⊢
  omega

theorem flatten_length_le {β : Type} (g : β → List Int) (l : List β) (c : Nat)
    (h : ∀ x ∈ l, (g x).length ≤ c) : ((l.map g).flatten).length ≤ c * l.length := by
  induction l with
  | nil => simp
  | cons a t ih =>
      simp only [List.map_cons, List.flatten_cons, List.length_append, List.length_cons]
      have ha := h a (by simp)
      have ht := ih fun x hx => h x (by simp [hx])
      have hc : c * (t.length + 1) = c * t.length + c := by ring
      omega


theorem writeVarint_wrap_eq (L : List Int) (hL : L.length ≤ 20000000) :
    writeVarintLoop (L.length : Int) = specVarint (L.length : Int) :=
  writeVarintLoop_eq_specVarint _ (by positivity) (by omega)

theorem encodeLayer_eq_spec {α : Type} (features : List (TileFeature α))
    (hrange : ∀ tf ∈ features, 0 ≤ tf.xt ∧ tf.xt ≤ 4096 ∧ 0 ≤ tf.yt ∧ tf.yt ≤ 4096)
    (hcount : features.length ≤ 1000000) :
    encodeLayer features "myLayer" 4096 =
      specTilePayload (features.map fun tf => (tf.xt, tf.yt)) := by
  have hmap : features.map encodeFeature = features.map fun tf => specFeatureMsg tf.xt tf.yt :=
    List.map_congr_left fun tf htf => by
      obtain ⟨h1, h2, h3, h4⟩ := hrange tf htf
      exact encodeFeature_eq_spec tf h1 h2 h3 h4
  have hflat : ((features.map fun tf => specFeatureMsg tf.xt tf.yt).flatten).length ≤
      18 * features.length := by
    apply flatten_length_le
    intro tf htf
    obtain ⟨h1, h2, h3, h4⟩ := hrange tf htf
    exact specFeatureMsg_length_le _ _ h1 h2 h3 h4
  have c10 : (((1 <<< 3) ||| 2 : Nat) : Int) = 10 := by decide
  have c40 : (((5 <<< 3) ||| 0 : Nat) : Int) = 40 := by decide
  have c26 : (((3 <<< 3) ||| 2 : Nat) : Int) = 26 := by decide
  have hu : (utf8 "myLayer").length = 7 := by decide
  have w10 : writeVarintLoop 10 = specVarint 10 :=
    writeVarintLoop_eq_specVarint _ (by norm_num) (by norm_num)
  have w40 : writeVarintLoop 40 = specVarint 40 :=
    writeVarintLoop_eq_specVarint _ (by norm_num) (by norm_num)
  have w4096 : writeVarintLoop 4096 = specVarint 4096 :=
    writeVarintLoop_eq_specVarint _ (by norm_num) (by norm_num)
  have w26 : writeVarintLoop 26 = specVarint 26 :=
    writeVarintLoop_eq_specVarint _ (by norm_num) (by norm_num)
  have wU : writeVarintLoop ((utf8 "myLayer").length : Int) =
      specVarint ((utf8 "myLayer").length : Int) :=
    writeVarintLoop_eq_specVarint _ (by positivity) (by rw [hu]; norm_num)
  unfold encodeLayer writeString
  simp only [writeVarint, List.nil_append, c10, c40, c26]
  rw [foldl_append_map encodeFeature, hmap]
  unfold specTilePayload specLayerBody
  rw [specTag_eval 1 2 10 (by decide), specTag_eval 5 0 40 (by decide),
    specTag_eval 3 2 26 (by decide)]
  simp only [w10, w40, w4096, w26, wU, List.map_map, Function.comp_def]
  rw [writeVarint_wrap_eq]
  · simp only [List.append_assoc]
    norm_cast
  · have bA : (specVarint 10).length ≤ 2 := specVarint_length_le _ (by norm_num)
    have bB : (specVarint 7).length ≤ 2 := specVarint_length_le _ (by norm_num)
    have bC : (specVarint 40).length ≤ 2 := specVarint_length_le _ (by norm_num)
    have bD : (specVarint 4096).length ≤ 2 := specVarint_length_le _ (by norm_num)
    simp only [List.length_append, hu, Nat.cast_ofNat]
    omega

theorem encodeLayer_ne_nil {α : Type} (features : List (TileFeature α))
    (name : String) (ext : Int) : encodeLayer features name ext ≠ [] := by
  simp [encodeLayer, writeString, writeVarint, writeVarintLoop_ne_nil]

theorem filteredFeatures_nil_iff {α : Type} (proj : ℚ → ℚ → Int × Int) (w s e n : ℚ)
    (fs : List (Feature α)) :
    filteredFeatures proj w s e n fs = [] ↔ ∀ f ∈ fs, inBbox w s e n f = false := by
  induction fs with
  | nil => simp [filteredFeatures]
  | cons a t ih =>
      unfold filteredFeatures at ih ⊢
      rcases hl : a.lon with _ | lon <;> rcases ht : a.lat with _ | lat <;>
        simp only [List.filterMap_cons, hl, ht, List.forall_mem_cons]
      · simpa [inBbox, hl, ht] using ih
      · simpa [inBbox, hl, ht] using ih
      · simpa [inBbox, hl, ht] using ih
      · cases hb : inBbox w s e n a
        · simpa [hb] using ih
        · simp [hb]

/-- C3: `generateTilePbf` returns the zero-length sentinel exactly when no
input feature passes the inclusive bbox containment test, and a surviving
feature always makes the payload non-empty.  The tile bbox `[w, s, e, n]` and
the tile-coordinate projection are universally quantified, so the statement
covers the values the source computes for every tile address. -/
theorem C3_empty_payload_iff_no_feature_in_bbox {α : Type} (proj : ℚ → ℚ → Int × Int)
    (w s e n : ℚ) (fs : List (Feature α)) :
    generateTilePbf proj w s e n fs = [] ↔ ∀ f ∈ fs, inBbox w s e n f = false := by
  have hfil := filteredFeatures_nil_iff proj w s e n fs
  unfold generateTilePbf
  by_cases hc : filteredFeatures proj w s e n fs = []
  · rw [if_pos (by simp [hc])]
    exact iff_of_true rfl (hfil.mp hc)
  · rw [if_neg (by simpa [List.length_eq_zero] using hc)]
    exact iff_of_false (encodeLayer_ne_nil _ _ _) fun hP => hc (hfil.mpr hP)

/-- C4: a feature with a non-finite coordinate (NaN, modelled as `none`) is
silently dropped by the containment test: the run completes and returns the
very same empty sentinel as an empty collection, with no error signalled —
the bbox here even covers the whole world. -/
theorem C4_nan_feature_silently_dropped :
    generateTilePbf (fun _ _ => (0, 0)) (-180) (-90) 180 90
        [({ lon := none, lat := some 0, properties := () } : Feature Unit)] = [] ∧
    generateTilePbf (fun _ _ => (0, 0)) (-180) (-90) 180 90
        ([] : List (Feature Unit)) = [] := by
  constructor <;> rfl

/-- C2: a non-empty payload is exactly one length-delimited field-3 (layers)
message: name `myLayer`, extent 4096, then one Feature message per surviving
feature in input order, each holding only field 3 `type = 1` and field 4 the
packed geometry `[9, zigzag(xt), zigzag(yt)]`; nothing else.  The hypotheses
ask that the surviving tile coordinates lie in `[0, 4096]` (what the
projection produces for points inside the tile) and that the tile is not
absurdly large (a million features keeps every length below `2^31`, where
the varint writer is exact). -/
theorem C2_payload_structure {α : Type} (proj : ℚ → ℚ → Int × Int) (w s e n : ℚ)
    (fs : List (Feature α))
    (hne : filteredFeatures proj w s e n fs ≠ [])
    (hrange : ∀ tf ∈ filteredFeatures proj w s e n fs,
      0 ≤ tf.xt ∧ tf.xt ≤ 4096 ∧ 0 ≤ tf.yt ∧ tf.yt ≤ 4096)
    (hcount : (filteredFeatures proj w s e n fs).length ≤ 1000000) :
    generateTilePbf proj w s e n fs =
      specTilePayload ((filteredFeatures proj w s e n fs).map fun tf => (tf.xt, tf.yt)) := by
  unfold generateTilePbf
  rw [if_neg (by simpa [List.length_eq_zero] using hne)]
  exact encodeLayer_eq_spec _ hrange hcount

theorem C2_payload_structure_witness :
    generateTilePbf (fun _ _ => (1, 2)) (-180) (-90) 180 90
        [({ lon := some 0, lat := some 0, properties := "p" } : Feature String)] =
      specTilePayload ((filteredFeatures (fun _ _ => (1, 2)) (-180) (-90) 180 90
        [({ lon := some 0, lat := some 0, properties := "p" } : Feature String)]).map
          fun tf => (tf.xt, tf.yt)) :=
  C2_payload_structure _ _ _ _ _ _ (by decide) (by decide) (by decide)

theorem encodeFeature_coords {α β : Type} (tf : TileFeature α) (tg : TileFeature β)
    (hx : tf.xt = tg.xt) (hy : tf.yt = tg.yt) : encodeFeature tf = encodeFeature tg := by
  obtain ⟨x, y, p⟩ := tf
  obtain ⟨x2, y2, q⟩ := tg
  simp only at hx hy
  subst hx
  subst hy
  rfl

theorem map_encodeFeature_coords {α β : Type} :
    ∀ (fs : List (TileFeature α)) (gs : List (TileFeature β)),
      fs.map (fun tf => (tf.xt, tf.yt)) = gs.map (fun tf => (tf.xt, tf.yt)) →
      fs.map encodeFeature = gs.map encodeFeature
  | [], [] => fun _ => rfl
  | [], _ :: _ => by intro h; simp at h
  | _ :: _, [] => by intro h; simp at h
  | a :: t, b :: u => by
      intro h
      simp only [List.map_cons, List.cons.injEq, Prod.mk.injEq] at h ⊢
      obtain ⟨⟨hx, hy⟩, htail⟩ := h
      exact ⟨encodeFeature_coords a b hx hy, map_encodeFeature_coords t u htail⟩

theorem encodeLayer_coords_congr {α β : Type} (fs : List (TileFeature α))
    (gs : List (TileFeature β)) (name : String) (ext : Int)
    (h : fs.map (fun tf => (tf.xt, tf.yt)) = gs.map (fun tf => (tf.xt, tf.yt))) :
    encodeLayer fs name ext = encodeLayer gs name ext := by
  unfold encodeLayer writeString
  simp only [writeVarint, List.nil_append]
  rw [foldl_append_map encodeFeature, foldl_append_map encodeFeature,
    map_encodeFeature_coords fs gs h]

theorem filteredFeatures_coords_congr {α β : Type} (proj : ℚ → ℚ → Int × Int)
    (w s e n : ℚ) :
    ∀ (fs : List (Feature α)) (gs : List (Feature β)),
      fs.map (fun f => (f.lon, f.lat)) = gs.map (fun g => (g.lon, g.lat)) →
      (filteredFeatures proj w s e n fs).map (fun tf => (tf.xt, tf.yt)) =
        (filteredFeatures proj w s e n gs).map (fun tf => (tf.xt, tf.yt))
  | [], [] => fun _ => rfl
  | [], _ :: _ => by intro h; simp at h
  | _ :: _, [] => by intro h; simp at h
  | a :: t, b :: u => by
      intro h
      simp only [List.map_cons, List.cons.injEq, Prod.mk.injEq] at h
      obtain ⟨⟨hlon, hlat⟩, htail⟩ := h
      have hib : inBbox w s e n a = inBbox w s e n b := by
        unfold inBbox
        rw [hlon, hlat]
      have hrec := filteredFeatures_coords_congr proj w s e n t u htail
      unfold filteredFeatures at hrec ⊢
      simp only [List.filterMap_cons, hlon, hlat, hib]
      rcases hl : b.lon with _ | lon <;> rcases ht : b.lat with _ | lat <;>
        simp only [hl, ht]
      · exact hrec
      · exact hrec
      · exact hrec
      · cases hb : inBbox w s e n b
        · simpa using hrec
        · simpa using hrec

/-- C9: two feature collections with the same coordinates feature by feature
produce byte-identical payloads for every tile, whatever their properties
are — the properties (of possibly different types on the two sides) never
reach the encoded bytes. -/
theorem C9_properties_never_influence_bytes {α β : Type} (proj : ℚ → ℚ → Int × Int)
    (w s e n : ℚ) (fs : List (Feature α)) (gs : List (Feature β))
    (h : fs.map (fun f => (f.lon, f.lat)) = gs.map (fun g => (g.lon, g.lat))) :
    generateTilePbf proj w s e n fs = generateTilePbf proj w s e n gs := by
  have hfmap := filteredFeatures_coords_congr proj w s e n fs gs h
  have hlen : (filteredFeatures proj w s e n fs).length =
      (filteredFeatures proj w s e n gs).length := by
    have := congrArg List.length hfmap
    simpa using this
  unfold generateTilePbf
  simp only [hlen]
  by_cases hc : (filteredFeatures proj w s e n gs).length = 0
  · rw [if_pos hc, if_pos hc]
  · rw [if_neg hc, if_neg hc]
    exact encodeLayer_coords_congr _ _ _ _ hfmap

theorem C9_properties_never_influence_bytes_witness :
    generateTilePbf (fun _ _ => (7, 8)) (-180) (-90) 180 90
        [({ lon := some 1, lat := some 2, properties := "red" } : Feature String)] =
      generateTilePbf (fun _ _ => (7, 8)) (-180) (-90) 180 90
        [({ lon := some 1, lat := some 2, properties := (3, true) } : Feature (Nat × Bool))] :=
  C9_properties_never_influence_bytes _ _ _ _ _ _ _ (by decide)

/-- C10: on an empty feature collection `getGeoJsonBBox` returns exactly
`[180, 90, -180, -90]` — its loop never runs, so the seed values come back
unchanged: a degenerate bbox with west greater than east and south greater
than north, and no error of any kind. -/
theorem C10_getGeoJsonBBox_empty_degenerate :
    getGeoJsonBBox ([] : List (Feature Unit)) = (180, 90, -180, -90) ∧
    (getGeoJsonBBox ([] : List (Feature Unit))).1 >
      (getGeoJsonBBox ([] : List (Feature Unit))).2.2.1 ∧
    (getGeoJsonBBox ([] : List (Feature Unit))).2.1 >
      (getGeoJsonBBox ([] : List (Feature Unit))).2.2.2 := by
  refine ⟨rfl, ?_, ?_⟩ <;> norm_num [getGeoJsonBBox]

/- ---------------- Projection and tile-range claims ------------------------- -/

/-- C5: for a point whose Mercator position lies inside the tile's Mercator
bbox (the image of the geographic containment test under the monotone
Mercator map), `projectToTileCoordinates` floors both scaled relative
positions to integers in `[0, extent]` — the far edge value `extent` itself
included — with the Y axis inverted: the north edge (`my = maxY`) maps to 0
and the south edge (`my = minY`) to `extent`. -/
theorem C5_projectToTileCoordinates_range (mx my : ℚ) (extent : Int)
    (minX minY maxX maxY : ℚ)
    (hx0 : minX ≤ mx) (hx1 : mx ≤ maxX) (hy0 : minY ≤ my) (hy1 : my ≤ maxY)
    (hW : minX < maxX) (hH : minY < maxY) (hext : 0 < extent) :
    0 ≤ (projectToTileCoordinates mx my extent minX minY maxX maxY).1 ∧
    (projectToTileCoordinates mx my extent minX minY maxX maxY).1 ≤ extent ∧
    0 ≤ (projectToTileCoordinates mx my extent minX minY maxX maxY).2 ∧
    (projectToTileCoordinates mx my extent minX minY maxX maxY).2 ≤ extent ∧
    (my = maxY → (projectToTileCoordinates mx my extent minX minY maxX maxY).2 = 0) ∧
    (my = minY → (projectToTileCoordinates mx my extent minX minY maxX maxY).2 = extent) := by
  unfold projectToTileCoordinates
  have hwidth : (0 : ℚ) < maxX - minX := by linarith
  have hheight : (0 : ℚ) < maxY - minY := by linarith
  have hxrel0 : (0 : ℚ) ≤ (mx - minX) / (maxX - minX) :=
    div_nonneg (by linarith) (le_of_lt hwidth)
  have hxrel1 : (mx - minX) / (maxX - minX) ≤ 1 := by
    rw [div_le_one hwidth]
    linarith
  have hyrel0 : (0 : ℚ) ≤ (maxY - my) / (maxY - minY) :=
    div_nonneg (by linarith) (le_of_lt hheight)
  have hyrel1 : (maxY - my) / (maxY - minY) ≤ 1 := by
    rw [div_le_one hheight]
    linarith
  have hcast : (0 : ℚ) ≤ (extent : ℚ) := by exact_mod_cast le_of_lt hext
  refine ⟨?_, ?_, ?_, ?_, ?_, ?_⟩
  · exact Int.floor_nonneg.mpr (mul_nonneg hxrel0 hcast)
  · calc ⌊(mx - minX) / (maxX - minX) * (extent : ℚ)⌋
        ≤ ⌊((extent : Int) : ℚ)⌋ := Int.floor_le_floor (by nlinarith)
      _ = extent := Int.floor_intCast extent
  · exact Int.floor_nonneg.mpr (mul_nonneg hyrel0 hcast)
  · calc ⌊(maxY - my) / (maxY - minY) * (extent : ℚ)⌋
        ≤ ⌊((extent : Int) : ℚ)⌋ := Int.floor_le_floor (by nlinarith)
      _ = extent := Int.floor_intCast extent
  · intro hrfl
    subst hrfl
    simp
  · intro hrfl
    subst hrfl
    simp only [div_self (ne_of_gt hheight), one_mul, Int.floor_intCast]

theorem C5_projectToTileCoordinates_range_witness :
    0 ≤ (projectToTileCoordinates 0 0 4096 0 0 1 1).1 ∧
    (projectToTileCoordinates 0 0 4096 0 0 1 1).1 ≤ 4096 ∧
    0 ≤ (projectToTileCoordinates 0 0 4096 0 0 1 1).2 ∧
    (projectToTileCoordinates 0 0 4096 0 0 1 1).2 ≤ 4096 ∧
    ((0 : ℚ) = 1 → (projectToTileCoordinates 0 0 4096 0 0 1 1).2 = 0) ∧
    ((0 : ℚ) = 0 → (projectToTileCoordinates 0 0 4096 0 0 1 1).2 = 4096) :=
  C5_projectToTileCoordinates_range 0 0 4096 0 0 1 1 (by decide) (by decide)
    (by decide) (by decide) (by decide) (by decide) (by decide)

theorem tile2lon_mono (x1 x2 : Int) (z : Nat) (h : x1 ≤ x2) :
    tile2lon x1 z ≤ tile2lon x2 z := by
  unfold tile2lon
  have h2 : (0 : ℚ) < 2 ^ z := by positivity
  have hx : (x1 : ℚ) ≤ (x2 : ℚ) := by exact_mod_cast h
  have : (x1 : ℚ) / 2 ^ z ≤ (x2 : ℚ) / 2 ^ z := by
    gcongr
  nlinarith

/-- C6: a feature sitting exactly on the shared vertical edge
`lon = tile2lon x z` between tile column `x` and column `x - 1`, with a
latitude inside the tiles' shared latitude span `[s, n]`, passes the
inclusive containment test of `generateTilePbf` for both tiles and therefore
survives the clip in both: the point is duplicated. -/
theorem C6_edge_point_in_both_tiles {α : Type} (z : Nat) (x : Int)
    (hx1 : 1 ≤ x) (hx2 : x ≤ 2 ^ z - 1) (lat s n : ℚ) (hs : s ≤ lat) (hn : lat ≤ n)
    (p : α) (proj : ℚ → ℚ → Int × Int) :
    inBbox (tile2lon x z) s (tile2lon (x + 1) z) n
      ({ lon := some (tile2lon x z), lat := some lat, properties := p } : Feature α) = true ∧
    inBbox (tile2lon (x - 1) z) s (tile2lon x z) n
      ({ lon := some (tile2lon x z), lat := some lat, properties := p } : Feature α) = true ∧
    (filteredFeatures proj (tile2lon x z) s (tile2lon (x + 1) z) n
      [({ lon := some (tile2lon x z), lat := some lat, properties := p } : Feature α)]).length = 1 ∧
    (filteredFeatures proj (tile2lon (x - 1) z) s (tile2lon x z) n
      [({ lon := some (tile2lon x z), lat := some lat, properties := p } : Feature α)]).length = 1 := by
  have he : tile2lon x z ≤ tile2lon (x + 1) z := tile2lon_mono x (x + 1) z (by omega)
  have hw : tile2lon (x - 1) z ≤ tile2lon x z := tile2lon_mono (x - 1) x z (by omega)
  have h1 : inBbox (tile2lon x z) s (tile2lon (x + 1) z) n
      ({ lon := some (tile2lon x z), lat := some lat, properties := p } : Feature α) = true := by
    simp [inBbox, le_refl, he, hs, hn]
  have h2 : inBbox (tile2lon (x - 1) z) s (tile2lon x z) n
      ({ lon := some (tile2lon x z), lat := some lat, properties := p } : Feature α) = true := by
    simp [inBbox, le_refl, hw, hs, hn]
  refine ⟨h1, h2, ?_, ?_⟩
  · simp [filteredFeatures, h1]
  · simp [filteredFeatures, h2]

theorem C6_edge_point_in_both_tiles_witness :
    inBbox (tile2lon 1 1) 0 (tile2lon (1 + 1) 1) 0
      ({ lon := some (tile2lon 1 1), lat := some 0, properties := () } : Feature Unit) = true ∧
    inBbox (tile2lon (1 - 1) 1) 0 (tile2lon 1 1) 0
      ({ lon := some (tile2lon 1 1), lat := some 0, properties := () } : Feature Unit) = true ∧
    (filteredFeatures (fun _ _ => (0, 0)) (tile2lon 1 1) 0 (tile2lon (1 + 1) 1) 0
      [({ lon := some (tile2lon 1 1), lat := some 0, properties := () } : Feature Unit)]).length = 1 ∧
    (filteredFeatures (fun _ _ => (0, 0)) (tile2lon (1 - 1) 1) 0 (tile2lon 1 1) 0
      [({ lon := some (tile2lon 1 1), lat := some 0, properties := () } : Feature Unit)]).length = 1 :=
  C6_edge_point_in_both_tiles 1 1 (by decide) (by decide) 0 0 0 (by decide) (by decide)
    () (fun _ _ => (0, 0))

/-- C7: for every zoom `z ≤ 24`, every bounding box and every latitude-row
function, all four indices returned by `getTileRangeFromBBox` are clamped
into `[0, 2^z - 1]`: at these zooms the JavaScript `(1 << z) - 1` is exactly
`2^z - 1` and the `Math.max(0, Math.min(v, maxIndex))` chain keeps every
value inside the range. -/
theorem C7_tile_range_clamped (latY : ℚ → Nat → Int) (bbox : ℚ × ℚ × ℚ × ℚ)
    (z : Nat) (hz : z ≤ 24) :
    0 ≤ (getTileRangeFromBBox latY bbox z).1 ∧
    (getTileRangeFromBBox latY bbox z).1 ≤ 2 ^ z - 1 ∧
    0 ≤ (getTileRangeFromBBox latY bbox z).2.1 ∧
    (getTileRangeFromBBox latY bbox z).2.1 ≤ 2 ^ z - 1 ∧
    0 ≤ (getTileRangeFromBBox latY bbox z).2.2.1 ∧
    (getTileRangeFromBBox latY bbox z).2.2.1 ≤ 2 ^ z - 1 ∧
    0 ≤ (getTileRangeFromBBox latY bbox z).2.2.2 ∧
    (getTileRangeFromBBox latY bbox z).2.2.2 ≤ 2 ^ z - 1 := by
  obtain ⟨w, s, e, n⟩ := bbox
  have hle : (2 : Int) ^ z ≤ 16777216 := by
    have h24 : (2 : Int) ^ z ≤ 2 ^ 24 := pow_le_pow_right (by norm_num) hz
    norm_num at h24
    exact h24
  have hpow : (0 : Int) < 2 ^ z := by positivity
  have hmax : jsShl32 1 z = 2 ^ z := by
    unfold jsShl32
    rw [Nat.mod_eq_of_lt (by omega), toInt32_eq_self 1 (by norm_num) (by norm_num),
      one_mul, toInt32_eq_self (2 ^ z) (by omega) (by omega)]
  have hpos : (0 : Int) ≤ 2 ^ z - 1 := by
    have h1 : (0 : Int) < 2 ^ z := by positivity
    omega
  unfold getTileRangeFromBBox
  simp only [hmax]
  generalize (2 : Int) ^ z = M at hpos ⊢
  refine ⟨?_, ?_, ?_, ?_, ?_, ?_, ?_, ?_⟩ <;> omega

theorem C7_tile_range_clamped_witness :
    0 ≤ (getTileRangeFromBBox (fun _ _ => 0) (0, 0, 0, 0) 10).1 ∧
    (getTileRangeFromBBox (fun _ _ => 0) (0, 0, 0, 0) 10).1 ≤ 2 ^ 10 - 1 ∧
    0 ≤ (getTileRangeFromBBox (fun _ _ => 0) (0, 0, 0, 0) 10).2.1 ∧
    (getTileRangeFromBBox (fun _ _ => 0) (0, 0, 0, 0) 10).2.1 ≤ 2 ^ 10 - 1 ∧
    0 ≤ (getTileRangeFromBBox (fun _ _ => 0) (0, 0, 0, 0) 10).2.2.1 ∧
    (getTileRangeFromBBox (fun _ _ => 0) (0, 0, 0, 0) 10).2.2.1 ≤ 2 ^ 10 - 1 ∧
    0 ≤ (getTileRangeFromBBox (fun _ _ => 0) (0, 0, 0, 0) 10).2.2.2 ∧
    (getTileRangeFromBBox (fun _ _ => 0) (0, 0, 0, 0) 10).2.2.2 ≤ 2 ^ 10 - 1 :=
  C7_tile_range_clamped (fun _ _ => 0) (0, 0, 0, 0) 10 (by decide)

/- ---------------- The Tokyo test point (C8) -------------------------------- -/

theorem long2tileX_tokyo : long2tileX (139767 / 1000) 10 = 909 := by
  unfold long2tileX
  rw [Int.floor_eq_iff]
  constructor <;> norm_num

theorem tokyo_hr_lo : (0.3113754 : ℝ) ≤ 35681 * Real.pi / 360000 := by
  have := Real.pi_gt_d6
  norm_num at this ⊢
  linarith

theorem tokyo_hr_hi : 35681 * Real.pi / 360000 ≤ (0.3113755 : ℝ) := by
  have := Real.pi_lt_d6
  norm_num at this ⊢
  linarith

theorem tokyo_sin_hr_lo : (0.3058542 : ℝ) ≤ Real.sin (35681 * Real.pi / 360000) := by
  have hl := tokyo_hr_lo
  have hu := tokyo_hr_hi
  have h0 : (0 : ℝ) ≤ 35681 * Real.pi / 360000 := by linarith
  have habs : |35681 * Real.pi / 360000| ≤ 1 := by
    rw [abs_of_nonneg h0]
    linarith
  have hb := Real.sin_bound habs
  rw [abs_of_nonneg h0] at hb
  have hb1 := (abs_le.mp hb).1
  have h3hi : (35681 * Real.pi / 360000) ^ 3 ≤ (0.3113755 : ℝ) ^ 3 :=
    pow_le_pow_left h0 hu 3
  have h4hi : (35681 * Real.pi / 360000) ^ 4 ≤ (0.3113755 : ℝ) ^ 4 :=
    pow_le_pow_left h0 hu 4
  nlinarith [hb1, hl, h3hi, h4hi]

theorem tokyo_sin_hr_hi : Real.sin (35681 * Real.pi / 360000) ≤ (0.3068336 : ℝ) := by
  have hl := tokyo_hr_lo
  have hu := tokyo_hr_hi
  have h0 : (0 : ℝ) ≤ 35681 * Real.pi / 360000 := by linarith
  have habs : |35681 * Real.pi / 360000| ≤ 1 := by
    rw [abs_of_nonneg h0]
    linarith
  have hb := Real.sin_bound habs
  rw [abs_of_nonneg h0] at hb
  have hb2 := (abs_le.mp hb).2
  have h3lo : (0.3113754 : ℝ) ^ 3 ≤ (35681 * Real.pi / 360000) ^ 3 :=
    pow_le_pow_left (by norm_num) hl 3
  have h4hi : (35681 * Real.pi / 360000) ^ 4 ≤ (0.3113755 : ℝ) ^ 4 :=
    pow_le_pow_left h0 hu 4
  nlinarith [hb2, hu, h3lo, h4hi]

theorem tokyo_cos_hr_lo : (0.9510330 : ℝ) ≤ Real.cos (35681 * Real.pi / 360000) := by
  have hl := tokyo_hr_lo
  have hu := tokyo_hr_hi
  have h0 : (0 : ℝ) ≤ 35681 * Real.pi / 360000 := by linarith
  have habs : |35681 * Real.pi / 360000| ≤ 1 := by
    rw [abs_of_nonneg h0]
    linarith
  have hb := Real.cos_bound habs
  rw [abs_of_nonneg h0] at hb
  have hb1 := (abs_le.mp hb).1
  have h2hi : (35681 * Real.pi / 360000) ^ 2 ≤ (0.3113755 : ℝ) ^ 2 :=
    pow_le_pow_left h0 hu 2
  have h4hi : (35681 * Real.pi / 360000) ^ 4 ≤ (0.3113755 : ℝ) ^ 4 :=
    pow_le_pow_left h0 hu 4
  nlinarith [hb1, h2hi, h4hi]

theorem tokyo_cos_hr_hi : Real.cos (35681 * Real.pi / 360000) ≤ (0.9520123 : ℝ) := by
  have hl := tokyo_hr_lo
  have hu := tokyo_hr_hi
  have h0 : (0 : ℝ) ≤ 35681 * Real.pi / 360000 := by linarith
  have habs : |35681 * Real.pi / 360000| ≤ 1 := by
    rw [abs_of_nonneg h0]
    linarith
  have hb := Real.cos_bound habs
  rw [abs_of_nonneg h0] at hb
  have hb2 := (abs_le.mp hb).2
  have h2lo : (0.3113754 : ℝ) ^ 2 ≤ (35681 * Real.pi / 360000) ^ 2 :=
    pow_le_pow_left (by norm_num) hl 2
  have h4hi : (35681 * Real.pi / 360000) ^ 4 ≤ (0.3113755 : ℝ) ^ 4 :=
    pow_le_pow_left h0 hu 4
  nlinarith [hb2, h2lo, h4hi]

theorem tokyo_rad_eq : (35681 : ℝ) / 1000 * Real.pi / 180 = 2 * (35681 * Real.pi / 360000) := by
  ring

theorem tokyo_sin_rad_lo : (0.5817548 : ℝ) ≤ Real.sin ((35681 : ℝ) / 1000 * Real.pi / 180) := by
  rw [tokyo_rad_eq, Real.sin_two_mul]
  have hS := tokyo_sin_hr_lo
  have hC := tokyo_cos_hr_lo
  have hm : (0.3058542 : ℝ) * 0.9510330 ≤
      Real.sin (35681 * Real.pi / 360000) * Real.cos (35681 * Real.pi / 360000) :=
    mul_le_mul hS hC (by norm_num) (by linarith)
  nlinarith [hm]

theorem tokyo_sin_rad_hi : Real.sin ((35681 : ℝ) / 1000 * Real.pi / 180) ≤ (0.5842188 : ℝ) := by
  rw [tokyo_rad_eq, Real.sin_two_mul]
  have hS := tokyo_sin_hr_hi
  have hC := tokyo_cos_hr_hi
  have hC0 : (0 : ℝ) ≤ Real.cos (35681 * Real.pi / 360000) := by
    have := tokyo_cos_hr_lo
    linarith
  have hm : Real.sin (35681 * Real.pi / 360000) * Real.cos (35681 * Real.pi / 360000) ≤
      (0.3068336 : ℝ) * 0.9520123 :=
    mul_le_mul hS hC hC0 (by norm_num)
  nlinarith [hm]

theorem tokyo_cos_rad_lo : (0.8117062 : ℝ) ≤ Real.cos ((35681 : ℝ) / 1000 * Real.pi / 180) := by
  rw [tokyo_rad_eq, Real.cos_two_mul]
  have hp := Real.sin_sq_add_cos_sq (35681 * Real.pi / 360000)
  have hS := tokyo_sin_hr_hi
  have hS0 : (0 : ℝ) ≤ Real.sin (35681 * Real.pi / 360000) := by
    have := tokyo_sin_hr_lo
    linarith
  have h2 : Real.sin (35681 * Real.pi / 360000) ^ 2 ≤ (0.3068336 : ℝ) ^ 2 :=
    pow_le_pow_left hS0 hS 2
  nlinarith [hp, h2]

theorem tokyo_cos_rad_hi : Real.cos ((35681 : ℝ) / 1000 * Real.pi / 180) ≤ (0.8129065 : ℝ) := by
  rw [tokyo_rad_eq, Real.cos_two_mul]
  have hp := Real.sin_sq_add_cos_sq (35681 * Real.pi / 360000)
  have hS := tokyo_sin_hr_lo
  have h2 : (0.3058542 : ℝ) ^ 2 ≤ Real.sin (35681 * Real.pi / 360000) ^ 2 :=
    pow_le_pow_left (by norm_num) hS 2
  nlinarith [hp, h2]

theorem tokyo_u_lo : (1.9458016 : ℝ) ≤
    (Real.sin ((35681 : ℝ) / 1000 * Real.pi / 180) + 1) /
      Real.cos ((35681 : ℝ) / 1000 * Real.pi / 180) := by
  have hcp : (0 : ℝ) < Real.cos ((35681 : ℝ) / 1000 * Real.pi / 180) := by
    have := tokyo_cos_rad_lo
    linarith
  rw [le_div_iff hcp]
  have h1 := tokyo_sin_rad_lo
  have h2 := tokyo_cos_rad_hi
  nlinarith [h1, h2]

theorem tokyo_u_hi :
    (Real.sin ((35681 : ℝ) / 1000 * Real.pi / 180) + 1) /
      Real.cos ((35681 : ℝ) / 1000 * Real.pi / 180) ≤ (1.9517146 : ℝ) := by
  have hcp : (0 : ℝ) < Real.cos ((35681 : ℝ) / 1000 * Real.pi / 180) := by
    have := tokyo_cos_rad_lo
    linarith
  rw [div_le_iff hcp]
  have h1 := tokyo_sin_rad_hi
  have h2 := tokyo_cos_rad_lo
  nlinarith [h1, h2]

theorem tokyo_exp_upper : Real.exp 0.6626797734375 < (1.9458016 : ℝ) := by
  have h := Real.exp_bound' (x := (0.6626797734375 : ℝ)) (by norm_num) (by norm_num)
    (n := 9) (by norm_num)
  refine lt_of_le_of_lt h ?_
  rw [show (9 : ℕ).factorial = 362880 from rfl]
  norm_num [Finset.sum_range_succ, Nat.factorial]

theorem tokyo_exp_lower : (1.9517146 : ℝ) < Real.exp 0.668815484375 := by
  have habs : |(0.668815484375 : ℝ)| ≤ 1 := by
    rw [abs_of_nonneg (by norm_num)]
    norm_num
  have hb := Real.exp_bound habs (n := 9) (by norm_num)
  rw [abs_of_nonneg (by norm_num : (0 : ℝ) ≤ 0.668815484375)] at hb
  have h1 := (abs_le.mp hb).1
  norm_num [Finset.sum_range_succ, Nat.factorial] at h1
  linarith [h1]

/-- C8: the fixed Tokyo test point at zoom 10: `long2tileX(139.767, 10) = 909`
and `lat2tileY(35.681, 10) = 403`.  The column is exact rational arithmetic;
the row is the floor of a transcendental expression, certified here by
rational interval bounds on `sin`, `cos`, `log` and `pi` (the real value is
about 403.24, far from both integer boundaries, so the IEEE evaluation the
source performs lands on the same floor).  Both functions are functions, so
the results are deterministic in the fixed inputs. -/
theorem C8_tokyo_tile_indices :
    long2tileX (139767 / 1000) 10 = 909 ∧ lat2tileY (35681 / 1000) 10 = 403 := by
  refine ⟨long2tileX_tokyo, ?_⟩
  unfold lat2tileY
  show (⌊(1 - Real.log (Real.tan ((35681 : ℝ) / 1000 * Real.pi / 180) +
      1 / Real.cos ((35681 : ℝ) / 1000 * Real.pi / 180)) / Real.pi) / 2 * 2 ^ 10⌋ : ℤ) = 403
  have hueq : Real.tan ((35681 : ℝ) / 1000 * Real.pi / 180) +
      1 / Real.cos ((35681 : ℝ) / 1000 * Real.pi / 180) =
      (Real.sin ((35681 : ℝ) / 1000 * Real.pi / 180) + 1) /
        Real.cos ((35681 : ℝ) / 1000 * Real.pi / 180) := by
    rw [Real.tan_eq_sin_div_cos, div_add_div_same]
  rw [hueq]
  set u : ℝ := (Real.sin ((35681 : ℝ) / 1000 * Real.pi / 180) + 1) /
    Real.cos ((35681 : ℝ) / 1000 * Real.pi / 180) with hu_def
  have hup : 0 < u := by
    apply div_pos
    · have := tokyo_sin_rad_lo
      linarith
    · have := tokyo_cos_rad_lo
      linarith
  have hA : 27 * Real.pi / 128 < Real.log u := by
    rw [Real.lt_log_iff_exp_lt hup]
    calc Real.exp (27 * Real.pi / 128)
        ≤ Real.exp 0.6626797734375 := by
          apply Real.exp_le_exp.mpr
          have := Real.pi_lt_d6
          norm_num at this ⊢
          linarith
      _ < 1.9458016 := tokyo_exp_upper
      _ ≤ u := tokyo_u_lo
  have hB : Real.log u ≤ 109 * Real.pi / 512 := by
    rw [Real.log_le_iff_le_exp hup]
    refine le_of_lt ?_
    calc u ≤ 1.9517146 := tokyo_u_hi
      _ < Real.exp 0.668815484375 := tokyo_exp_lower
      _ ≤ Real.exp (109 * Real.pi / 512) := by
          apply Real.exp_le_exp.mpr
          have := Real.pi_gt_d6
          norm_num at this ⊢
          linarith
  have hπ := Real.pi_pos
  have ht1 : Real.log u / Real.pi ≤ 109 / 512 := by
    rw [div_le_iff hπ]
    linarith
  have ht2 : (27 : ℝ) / 128 < Real.log u / Real.pi := by
    rw [lt_div_iff hπ]
    linarith
  have hv : (1 - Real.log u / Real.pi) / 2 * 2 ^ 10 =
      512 - 512 * (Real.log u / Real.pi) := by
    ring
  rw [Int.floor_eq_iff, hv]
  constructor
  · push_cast
    linarith
  · push_cast
    linarith
